import Mathlib

/-!
Verification of the local-pvc-backup agent: a shallow embedding of its
PVC discovery, backup-path resolution, external-tool argument construction,
and scheduling loop, together with theorems settling the specified
properties against that embedding.

The Go standard-library string and path functions used by the program
(strings.Split, strings.TrimSpace, strings.ToLower, path/filepath.Clean,
path/filepath.Join) are embedded as structural recursions over the
character list underlying a string, so that every definition evaluates
inside the kernel.
-/

set_option autoImplicit false

namespace LocalPVCBackup

/-- Whitespace test used by Go strings.TrimSpace, restricted to the ASCII
whitespace characters (the annotation and retention values handled by the
program are ASCII). -/
def goIsSpace (c : Char) : Bool :=
  c == ' ' || c == '\t' || c == '\n' || c == '\x0b' || c == '\x0c' || c == '\r'

/-- Embedding of Go strings.TrimSpace: drop leading and trailing whitespace. -/
def goTrimSpace (s : String) : String :=
  String.mk (((s.data.dropWhile goIsSpace).reverse.dropWhile goIsSpace).reverse)

/-- Worker for goSplitChar: cur holds the characters of the current segment
in reverse order. -/
def goSplitCharAux (sep : Char) : List Char → List Char → List String
  | [], cur => [String.mk cur.reverse]
  | c :: rest, cur =>
    if c == sep then String.mk cur.reverse :: goSplitCharAux sep rest []
    else goSplitCharAux sep rest (c :: cur)

/-- Embedding of Go strings.Split with a one-character separator: splits on
every occurrence of sep; the empty string yields one empty segment, exactly
as strings.Split does. -/
def goSplitChar (sep : Char) (s : String) : List String :=
  goSplitCharAux sep s.data []

/-- ASCII lowering of one character, the fragment of Go strings.ToLower the
program relies on (annotation values are ASCII). -/
def goLowerChar (c : Char) : Char :=
  if 65 ≤ c.toNat ∧ c.toNat ≤ 90 then Char.ofNat (c.toNat + 32) else c

/-- Embedding of Go strings.ToLower. -/
def goToLower (s : String) : String :=
  String.mk (s.data.map goLowerChar)

/-- True when the path begins with a slash (a rooted path, in the words of
Go path/filepath). -/
def goIsRooted (s : String) : Bool :=
  match s.data with
  | c :: _ => c == '/'
  | [] => false

/-- Join a list of strings with a separator between consecutive elements. -/
def joinSep (sep : String) : List String → String
  | [] => ""
  | [x] => x
  | x :: y :: rest => x ++ sep ++ joinSep sep (y :: rest)

/-- The component pass of Go path/filepath.Clean: acc holds the surviving
components in reverse order. Empty components and single dots are dropped;
a double dot pops the previous component, survives at the head of an
unrooted path, and is dropped at the root of a rooted path. -/
def cleanComponents (rooted : Bool) : List String → List String → List String
  | [], acc => acc.reverse
  | c :: rest, acc =>
    if c = "" ∨ c = "." then cleanComponents rooted rest acc
    else if c = ".." then
      match acc with
      | [] =>
        if rooted then cleanComponents rooted rest []
        else cleanComponents rooted rest [".."]
      | top :: accTail =>
        if top = ".." then cleanComponents rooted rest (".." :: top :: accTail)
        else cleanComponents rooted rest accTail
    else cleanComponents rooted rest (c :: acc)

/-- Embedding of Go path/filepath.Clean for slash-separated paths: the
shortest lexically equivalent path (duplicate slashes removed, dot and
double-dot components resolved, trailing slash dropped), with "." for an
empty result. -/
def goClean (path : String) : String :=
  if path = "" then "."
  else
    let rooted := goIsRooted path
    let comps := cleanComponents rooted (goSplitChar '/' path) []
    if rooted then "/" ++ joinSep "/" comps
    else if comps = [] then "." else joinSep "/" comps

/-- Embedding of Go path/filepath.Join on two elements: empty elements are
ignored, the remainder is joined with a slash and cleaned. -/
def goJoin (elem1 elem2 : String) : String :=
  if elem1 = "" then
    if elem2 = "" then "" else goClean elem2
  else goClean (elem1 ++ "/" ++ elem2)

/-! ## Configuration and annotation policy (pkg/config/config.go, pkg/k8s/client.go) -/

/-- Annotation key backup.local-pvc.io/enabled. -/
def AnnotationEnabled : String := "backup.local-pvc.io/enabled"

/-- Annotation key backup.local-pvc.io/include. -/
def AnnotationInclude : String := "backup.local-pvc.io/include"

/-- Annotation key backup.local-pvc.io/exclude. -/
def AnnotationExclude : String := "backup.local-pvc.io/exclude"

/-- PVCBackupConfig from pkg/config: the per-volume backup policy resolved
from annotations. -/
structure PVCBackupConfig where
  Enabled : Bool
  Include : String
  Exclude : String
deriving DecidableEq

/-- DefaultPVCBackupConfig from pkg/config: backup disabled, no include or
exclude specification. -/
def DefaultPVCBackupConfig : PVCBackupConfig :=
  { Enabled := false, Include := "", Exclude := "" }

/-- Lookup in a string-keyed map modelled as an association list (a Go map
has unique keys; first-match lookup realises map access). -/
def lookupKey {α : Type} : List (String × α) → String → Option α
  | [], _ => none
  | (k2, v) :: rest, k => if k2 = k then some v else lookupKey rest k

/-- getBackupConfig from pkg/k8s/client.go: start from the default policy
and overwrite each field whose annotation key is present; the enabled flag
holds exactly when the lowered value of the enabled annotation is true. -/
def getBackupConfig (anns : List (String × String)) : PVCBackupConfig :=
  let cfg := DefaultPVCBackupConfig
  let cfg := match lookupKey anns AnnotationEnabled with
    | some enabled => { cfg with Enabled := goToLower enabled == "true" }
    | none => cfg
  let cfg := match lookupKey anns AnnotationInclude with
    | some includeStr => { cfg with Include := includeStr }
    | none => cfg
  match lookupKey anns AnnotationExclude with
  | some excludeStr => { cfg with Exclude := excludeStr }
  | none => cfg

/-! ## Volume discovery (pkg/k8s/client.go, GetPVCsToBackup) -/

/-- One entry of a pod volume list: the volume name, and the claim name
when the volume is backed by a persistent volume claim (the field is nil
in Go otherwise). -/
structure PodVolume where
  name : String
  persistentVolumeClaim : Option String
deriving DecidableEq

/-- The fragment of a pod object the discovery pass reads: namespace,
metadata annotations and the volume list of the pod spec. -/
structure Pod where
  Namespace : String
  Annotations : List (String × String)
  Volumes : List PodVolume
deriving DecidableEq

/-- PVCInfo from pkg/k8s/client.go: one eligible volume. Path holds the
directory name pvc-(claim)_(namespace)_(volume) derived by discovery. -/
structure PVCInfo where
  Name : String
  Namespace : String
  Path : String
  Config : PVCBackupConfig
deriving DecidableEq

/-- The namespace/name deduplication key built for a discovered entry. -/
def pvcKey (info : PVCInfo) : String :=
  info.Namespace ++ "/" ++ info.Name

/-- Assignment pvcMap[key] = info on the deduplication map: replace the
binding in place when the key is present, append otherwise (the content of
a Go map after assignment). -/
def mapInsert (m : List (String × PVCInfo)) (k : String) (v : PVCInfo) :
    List (String × PVCInfo) :=
  match m with
  | [] => [(k, v)]
  | (k2, v2) :: rest =>
    if k2 = k then (k, v) :: rest else (k2, v2) :: mapInsert rest k v

/-- The map writes produced by the inner volume loop of GetPVCsToBackup for
one pod: a volume without a claim is skipped; otherwise the key is
namespace/claim, the path is pvc-(claim)_(namespace)_(volume), and the
write happens only when the full path under /data exists (fsExists models
the os.Stat existence check). -/
def volWrites (pod : Pod) (cfg : PVCBackupConfig) (fsExists : String → Bool) :
    List PodVolume → List (String × PVCInfo)
  | [] => []
  | volume :: rest =>
    match volume.persistentVolumeClaim with
    | none => volWrites pod cfg fsExists rest
    | some pvcName =>
      let key := pod.Namespace ++ "/" ++ pvcName
      let pvcPath := "pvc-" ++ pvcName ++ "_" ++ pod.Namespace ++ "_" ++ volume.name
      let fullPath := goJoin "/data" pvcPath
      if fsExists fullPath then
        (key, { Name := pvcName, Namespace := pod.Namespace,
                Path := pvcPath, Config := cfg }) :: volWrites pod cfg fsExists rest
      else volWrites pod cfg fsExists rest

/-- The map writes of GetPVCsToBackup for one pod: a pod whose resolved
policy is not enabled contributes nothing. -/
def podWrites (pod : Pod) (fsExists : String → Bool) : List (String × PVCInfo) :=
  let cfg := getBackupConfig pod.Annotations
  if !cfg.Enabled then [] else volWrites pod cfg fsExists pod.Volumes

/-- The sequence of deduplication-map writes performed by the nested
pod/volume loops of GetPVCsToBackup, in iteration order. -/
def discoveryWrites (pods : List Pod) (fsExists : String → Bool) :
    List (String × PVCInfo) :=
  match pods with
  | [] => []
  | pod :: rest => podWrites pod fsExists ++ discoveryWrites rest fsExists

/-- GetPVCsToBackup from pkg/k8s/client.go. The pod-list query is an
external collaborator, so its outcome is a parameter; a query failure
propagates as the error of the whole call. On success the nested loops
perform the writes of discoveryWrites on an initially empty map, and the
values of the final map are returned. -/
def GetPVCsToBackup (podsResult : Except String (List Pod))
    (fsExists : String → Bool) : Except String (List PVCInfo) :=
  match podsResult with
  | .error e => .error ("failed to list pods: " ++ e)
  | .ok pods =>
    let pvcMap := (discoveryWrites pods fsExists).foldl
      (fun m w => mapInsert m w.1 w.2) []
    .ok (pvcMap.map Prod.snd)

/-! ## Pattern processing and backup paths (pkg/backup/backup.go) -/

/-- The segment pass of processPatterns over the split list: trim each
segment, skip the empty ones, and join the base path with each survivor. -/
def processPatternsAux (basePath : String) : List String → List String
  | [] => []
  | pattern :: rest =>
    let pattern := goTrimSpace pattern
    if pattern = "" then processPatternsAux basePath rest
    else goJoin basePath pattern :: processPatternsAux basePath rest

/-- processPatterns from pkg/backup/backup.go: an empty pattern string
yields nothing; otherwise the string is split on commas and each trimmed
non-empty segment is joined onto the base path. -/
def processPatterns (basePath patternStr : String) : List String :=
  if patternStr = "" then []
  else processPatternsAux basePath (goSplitChar ',' patternStr)

/-- The comma-separated, whitespace-trimmed, non-empty segments of a
specification string, used to state the properties of the splitting rule. -/
def patternSegments (s : String) : List String :=
  ((goSplitChar ',' s).map goTrimSpace).filter (fun t => t ≠ "")

/-- The backup source paths resolved for one eligible volume inside
performBackups: the volume path itself when the include specification is
empty, the processed include patterns otherwise (the length guard of the
source is the identity, since appending an empty list adds nothing). -/
def resolveBackupPaths (pvc : PVCInfo) : List String :=
  if pvc.Config.Include = "" then [pvc.Path]
  else processPatterns pvc.Path pvc.Config.Include

/-! ## External-tool argument construction (pkg/restic/restic.go) -/

/-- The argument list of the backup invocation built by Client.Backup:
the fixed prelude, one exclude flag per non-empty exclude pattern, then
every source path. -/
def resticBackupArgs (repo host : String)
    (sourcePaths excludePatterns : List String) : List String :=
  ["backup", "--repo", repo, "--host", host]
    ++ ((excludePatterns.filter (fun p => p ≠ "")).map
          (fun p => ["--exclude", p])).flatten
    ++ sourcePaths

/-- The keep flags built by Client.Forget: the retention string is split
on commas and each trimmed non-empty token contributes a keep-within flag
pair, in token order. -/
def forgetKeepFlags (retention : String) : List String :=
  (goSplitChar ',' retention).foldl
    (fun keepFlags policy =>
      let policy := goTrimSpace policy
      if policy = "" then keepFlags
      else keepFlags ++ ["--keep-within", policy]) []

/-- Client.Forget from pkg/restic/restic.go, as the argument list of the
forget invocation it issues: none when no keep flag survives (the call
returns nil without running the external tool), otherwise the fixed
prelude followed by the keep flags. -/
def resticForget (repo retention : String) : Option (List String) :=
  let keepFlags := forgetKeepFlags retention
  if keepFlags = [] then none
  else some (["forget", "--repo", repo, "--prune"] ++ keepFlags)

/-! ## The backup cycle (pkg/backup/backup.go, performBackups) -/

/-- One invocation of the external backup tool recorded by a cycle. -/
inductive ResticCall where
  | backup (args : List String)
  | forget (args : List String)
deriving DecidableEq

/-- The backup invocation issued for one eligible volume. -/
def backupCallOf (repo host : String) (pvc : PVCInfo) : ResticCall :=
  ResticCall.backup (resticBackupArgs repo host (resolveBackupPaths pvc)
    (processPatterns pvc.Path pvc.Config.Exclude))

/-- What a backup cycle did: the external-tool invocations issued in
order, the error lines logged, and the value returned. -/
structure CycleOutcome where
  calls : List ResticCall
  logs : List String
  result : Except String Unit

/-- The per-volume loop of performBackups: each volume in turn gets one
backup invocation built from its resolved paths and processed excludes
(backupOk models the outcome of the external command); on failure the
loop stops at once and the error return carries the volume identity. -/
def performBackupsLoop (repo host : String) (backupOk : PVCInfo → Bool) :
    List PVCInfo → List ResticCall × Except String Unit
  | [] => ([], .ok ())
  | pvc :: rest =>
    let call := backupCallOf repo host pvc
    if backupOk pvc then
      let next := performBackupsLoop repo host backupOk rest
      (call :: next.1, next.2)
    else
      ([call], .error ("failed to backup PVC " ++ pvc.Namespace ++ "/" ++ pvc.Name))

/-- performBackups from pkg/backup/backup.go: a discovery failure returns
an error before any invocation; an empty volume list returns nil at once;
otherwise the per-volume loop runs, a loop failure is returned as the
cycle error, and on success Forget runs once with the global retention
(its failure is logged, never returned). forgetOk models the outcome of
the external forget command. -/
def performBackups (repo host retention : String)
    (pvcsResult : Except String (List PVCInfo))
    (backupOk : PVCInfo → Bool) (forgetOk : Bool) : CycleOutcome :=
  match pvcsResult with
  | .error e => { calls := [], logs := [],
                  result := .error ("failed to get PVCs to backup: " ++ e) }
  | .ok pvcs =>
    if pvcs = [] then
      { calls := [], logs := ["No PVCs to backup"], result := .ok () }
    else
      let run := performBackupsLoop repo host backupOk pvcs
      match run.2 with
      | .error e => { calls := run.1, logs := [], result := .error e }
      | .ok _ =>
        match resticForget repo retention with
        | none => { calls := run.1, logs := [], result := .ok () }
        | some args =>
          if forgetOk then
            { calls := run.1 ++ [ResticCall.forget args], logs := [],
              result := .ok () }
          else
            { calls := run.1 ++ [ResticCall.forget args],
              logs := ["Error cleaning up old backups"], result := .ok () }

/-! ## The scheduling loop (pkg/backup/backup.go, StartBackupLoop) -/

/-- One observation at the tick-wait point of the loop: either the ticker
fires or the cancellation signal is ready. -/
inductive LoopEvent where
  | tick
  | cancel
deriving DecidableEq

/-- What a run of the scheduling loop did: the error lines logged, the
number of cycles run, and the value returned when the loop exited (none
when the supplied event sequence ended with the loop still waiting). -/
structure LoopOutcome where
  logs : List String
  cyclesRun : Nat
  returned : Option (Except String Unit)

/-- The select loop of StartBackupLoop over a finite event sequence:
cancellation returns nil at once; a tick runs one cycle, logs its failure
when it fails, and in either case the loop continues. cycleResult gives
the outcome of the cycle run at each tick, n counts the cycles run so
far. -/
def backupLoopAux (cycleResult : Nat → Except String Unit) :
    List LoopEvent → Nat → LoopOutcome
  | [], n => { logs := [], cyclesRun := n, returned := none }
  | LoopEvent.cancel :: _, n =>
    { logs := [], cyclesRun := n, returned := some (.ok ()) }
  | LoopEvent.tick :: rest, n =>
    let out := backupLoopAux cycleResult rest (n + 1)
    match cycleResult n with
    | .error e => { out with logs := ("Error performing backups: " ++ e) :: out.logs }
    | .ok _ => out

/-- StartBackupLoop from pkg/backup/backup.go: one cycle runs at once (a
failure is logged, not returned), then the loop waits on the ticker and
the cancellation signal. -/
def StartBackupLoop (cycleResult : Nat → Except String Unit)
    (events : List LoopEvent) : LoopOutcome :=
  let out := backupLoopAux cycleResult events 1
  match cycleResult 0 with
  | .error e => { out with logs := ("Initial backup failed: " ++ e) :: out.logs }
  | .ok _ => out

/-! ## Pattern-splitting lemmas -/

/-- The segment pass of processPatterns maps the join over the trimmed,
non-empty segments. -/
theorem processPatternsAux_eq_map (basePath : String) (l : List String) :
    processPatternsAux basePath l
      = ((l.map goTrimSpace).filter (fun t => t ≠ "")).map (goJoin basePath) := by
  induction l with
  | nil => rfl
  | cons p rest ih =>
    by_cases h : goTrimSpace p = "" <;> simp [processPatternsAux, h, ih]

/-- processPatterns maps the join onto each surviving segment of the
specification string. -/
theorem processPatterns_eq_map (basePath s : String) :
    processPatterns basePath s = (patternSegments s).map (goJoin basePath) := by
  by_cases h : s = ""
  · subst h; rfl
  · simp [processPatterns, h, patternSegments, processPatternsAux_eq_map]

/-- The keep-flag fold of Forget, run from any accumulator, appends one
keep-within flag pair per surviving segment. -/
theorem forgetFoldAux (l : List String) (acc : List String) :
    l.foldl (fun keepFlags policy =>
        let policy := goTrimSpace policy
        if policy = "" then keepFlags
        else keepFlags ++ ["--keep-within", policy]) acc
      = acc ++ (((l.map goTrimSpace).filter (fun t => t ≠ "")).map
          (fun p => ["--keep-within", p])).flatten := by
  induction l generalizing acc with
  | nil => simp
  | cons p rest ih =>
    by_cases h : goTrimSpace p = "" <;> simp [ih, h]

/-- The keep flags of Forget are one keep-within pair per retention token. -/
theorem forgetKeepFlags_eq (r : String) :
    forgetKeepFlags r
      = ((patternSegments r).map (fun p => ["--keep-within", p])).flatten := by
  simpa [forgetKeepFlags, patternSegments] using
    forgetFoldAux (goSplitChar ',' r) []

/-! ## Claim theorems: policy resolution, path resolution, retention -/

/-- C2: the resolved policy is enabled exactly when the enabled annotation
key is present with a value that lowers to true; for an absent key or any
other value the policy is disabled, and resolution is total, never
failing. -/
theorem getBackupConfig_enabled_iff (anns : List (String × String)) :
    (getBackupConfig anns).Enabled = true ↔
      ∃ v, lookupKey anns AnnotationEnabled = some v ∧ goToLower v = "true" := by
  cases h1 : lookupKey anns AnnotationEnabled with
  | none =>
    cases h2 : lookupKey anns AnnotationInclude <;>
      cases h3 : lookupKey anns AnnotationExclude <;>
        simp [getBackupConfig, h1, h2, h3, DefaultPVCBackupConfig]
  | some v =>
    cases h2 : lookupKey anns AnnotationInclude <;>
      cases h3 : lookupKey anns AnnotationExclude <;>
        simp [getBackupConfig, h1, h2, h3, DefaultPVCBackupConfig]

/-- C3: an empty include specification resolves to exactly the volume
path; otherwise one path per trimmed non-empty comma segment, each the
join of the volume path with the segment, in segment order; in particular
include data,conf on path /data/vol1 resolves to /data/vol1/data then
/data/vol1/conf. -/
theorem resolveBackupPaths_spec (pvc : PVCInfo) :
    resolveBackupPaths pvc
      = (if pvc.Config.Include = "" then [pvc.Path]
         else (patternSegments pvc.Config.Include).map (goJoin pvc.Path))
    ∧ resolveBackupPaths
        { Name := "vol1", Namespace := "ns", Path := "/data/vol1",
          Config := { Enabled := true, Include := "data,conf", Exclude := "" } }
      = ["/data/vol1/data", "/data/vol1/conf"] := by
  refine ⟨?_, by decide⟩
  by_cases h : pvc.Config.Include = "" <;>
    simp [resolveBackupPaths, h, processPatterns_eq_map]

/-- C6: cleanup emits exactly one keep-within flag pair per retention
token in token order; when no token survives no forget invocation is made
and the call succeeds; retention 14d yields exactly one keep-within 14d
and the empty retention yields no invocation. -/
theorem Forget_retention_spec (repo retention : String) :
    forgetKeepFlags retention
      = ((patternSegments retention).map (fun p => ["--keep-within", p])).flatten
    ∧ (resticForget repo retention = none ↔ patternSegments retention = [])
    ∧ resticForget repo "14d"
        = some ["forget", "--repo", repo, "--prune", "--keep-within", "14d"]
    ∧ resticForget repo "" = none := by
  have hempty : forgetKeepFlags retention = [] ↔ patternSegments retention = [] := by
    rw [forgetKeepFlags_eq]
    cases patternSegments retention with
    | nil => simp
    | cons t ts => simp
  refine ⟨forgetKeepFlags_eq retention, ?_, ?_, ?_⟩
  · by_cases h : forgetKeepFlags retention = []
    · simp [resticForget, h, hempty.mp h]
    · simp only [resticForget, if_neg h]
      simp only [reduceCtorEq, false_iff]
      exact fun hs => h (hempty.mpr hs)
  · rfl
  · rfl

/-- C9: a cycle whose discovery returns zero eligible volumes succeeds at
once, issuing no backup invocation and no retention-cleanup invocation. -/
theorem performBackups_empty_cycle (repo host retention : String)
    (backupOk : PVCInfo → Bool) (forgetOk : Bool) :
    performBackups repo host retention (.ok []) backupOk forgetOk
      = { calls := [], logs := ["No PVCs to backup"], result := Except.ok () } :=
  rfl

/-! ## The end-to-end scenario (C1) -/

/-- The scenario pod: namespace default, annotations enabled true and
exclude tmp/*,*.log, one volume named vol mounting claim data. -/
def scenarioPod : Pod :=
  { Namespace := "default",
    Annotations := [(AnnotationEnabled, "true"), (AnnotationExclude, "tmp/*,*.log")],
    Volumes := [{ name := "vol", persistentVolumeClaim := some "data" }] }

/-- The scenario filesystem: exactly the directory
/data/pvc-data_default_vol exists on the node. -/
def scenarioFs (p : String) : Bool :=
  p == "/data/pvc-data_default_vol"

/-- C1: in the end-to-end scenario one backup cycle issues exactly one
backup invocation, but its source path is the bare directory name
pvc-data_default_vol and its excludes are anchored at that bare name:
discovery stores the directory name without the /data storage root it
verified, so the emitted arguments are not the documented /data-prefixed
forms. -/
theorem endToEnd_scenario_args :
    (performBackups "s3:repo" "node1" ""
        (GetPVCsToBackup (.ok [scenarioPod]) scenarioFs)
        (fun _ => true) true).calls
      = [ResticCall.backup
          ["backup", "--repo", "s3:repo", "--host", "node1",
           "--exclude", "pvc-data_default_vol/tmp/*",
           "--exclude", "pvc-data_default_vol/*.log",
           "pvc-data_default_vol"]]
    ∧ (performBackups "s3:repo" "node1" ""
        (GetPVCsToBackup (.ok [scenarioPod]) scenarioFs)
        (fun _ => true) true).calls
      ≠ [ResticCall.backup
          ["backup", "--repo", "s3:repo", "--host", "node1",
           "--exclude", "/data/pvc-data_default_vol/tmp/*",
           "--exclude", "/data/pvc-data_default_vol/*.log",
           "/data/pvc-data_default_vol"]] := by
  exact ⟨by decide, by decide⟩

/-! ## Per-volume failure handling (C7) -/

/-- When the external command succeeds on every volume, the per-volume
loop issues one backup invocation per volume, in order, and succeeds. -/
theorem performBackupsLoop_all_ok (repo host : String)
    (backupOk : PVCInfo → Bool) (pvcs : List PVCInfo)
    (h : ∀ u ∈ pvcs, backupOk u = true) :
    performBackupsLoop repo host backupOk pvcs
      = (pvcs.map (backupCallOf repo host), .ok ()) := by
  induction pvcs with
  | nil => rfl
  | cons pvc rest ih =>
    have hp : backupOk pvc = true := h pvc (by simp)
    have hr := ih (fun u hu => h u (by simp [hu]))
    simp [performBackupsLoop, hp, hr]

/-- When the external command fails on one volume after succeeding on the
volumes before it, the per-volume loop stops at that volume: the failing
invocation is the last one issued and the loop returns its error. -/
theorem performBackupsLoop_failfast (repo host : String)
    (backupOk : PVCInfo → Bool) (pre post : List PVCInfo) (v : PVCInfo)
    (hpre : ∀ u ∈ pre, backupOk u = true) (hv : backupOk v = false) :
    performBackupsLoop repo host backupOk (pre ++ v :: post)
      = ((pre ++ [v]).map (backupCallOf repo host),
         .error ("failed to backup PVC " ++ v.Namespace ++ "/" ++ v.Name)) := by
  induction pre with
  | nil => simp [performBackupsLoop, hv]
  | cons u rest ih =>
    have hu : backupOk u = true := hpre u (by simp)
    have hr := ih (fun w hw => hpre w (by simp [hw]))
    simp [performBackupsLoop, hu, hr]

/-- C7: a backup failure on one eligible volume ends the cycle at once
with a cycle-level error, no invocation reaching the remaining volumes
and no retention cleanup running; when every per-volume backup succeeds
the cycle returns nil whatever the cleanup outcome. -/
theorem performBackups_per_volume_failfast (repo host retention : String)
    (backupOk : PVCInfo → Bool) (forgetOk : Bool)
    (pre post : List PVCInfo) (v : PVCInfo)
    (hpre : ∀ u ∈ pre, backupOk u = true) (hv : backupOk v = false) :
    ((performBackups repo host retention (.ok (pre ++ v :: post))
          backupOk forgetOk).calls
        = (pre ++ [v]).map (backupCallOf repo host)
      ∧ (performBackups repo host retention (.ok (pre ++ v :: post))
          backupOk forgetOk).result
        = .error ("failed to backup PVC " ++ v.Namespace ++ "/" ++ v.Name))
    ∧ ∀ pvcs, (∀ u ∈ pvcs, backupOk u = true) →
        (performBackups repo host retention (.ok pvcs) backupOk forgetOk).result
          = .ok () := by
  constructor
  · have hloop := performBackupsLoop_failfast repo host backupOk pre post v hpre hv
    constructor <;> simp [performBackups, hloop]
  · intro pvcs h
    cases pvcs with
    | nil => rfl
    | cons p ps =>
      have hloop := performBackupsLoop_all_ok repo host backupOk (p :: ps) h
      simp only [performBackups, hloop]
      cases hf : resticForget repo retention <;> cases forgetOk <;> simp

/-- A volume on which the modelled external command fails. -/
def wPVCbad : PVCInfo :=
  { Name := "bad", Namespace := "ns", Path := "pvc-bad_ns_v",
    Config := { Enabled := true, Include := "", Exclude := "" } }

/-- A volume before the failing one. -/
def wPVCa : PVCInfo :=
  { Name := "good1", Namespace := "ns", Path := "pvc-good1_ns_v",
    Config := { Enabled := true, Include := "", Exclude := "" } }

/-- A volume after the failing one, never reached. -/
def wPVCc : PVCInfo :=
  { Name := "good2", Namespace := "ns", Path := "pvc-good2_ns_v",
    Config := { Enabled := true, Include := "", Exclude := "" } }

/-- External-command outcome for the witness: fails exactly on the volume
named bad. -/
def wBackupOk (p : PVCInfo) : Bool :=
  !(p.Name == "bad")

/-- Witness for C7 at a concrete three-volume cycle whose second backup
fails. -/
theorem performBackups_per_volume_failfast_witness :
    (performBackups "s3:repo" "node1" "14d" (.ok ([wPVCa] ++ wPVCbad :: [wPVCc]))
        wBackupOk false).calls
      = ([wPVCa] ++ [wPVCbad]).map (backupCallOf "s3:repo" "node1")
    ∧ (performBackups "s3:repo" "node1" "14d" (.ok ([wPVCa] ++ wPVCbad :: [wPVCc]))
        wBackupOk false).result
      = .error ("failed to backup PVC " ++ wPVCbad.Namespace ++ "/" ++ wPVCbad.Name) :=
  (performBackups_per_volume_failfast "s3:repo" "node1" "14d" wBackupOk false
    [wPVCa] [wPVCc] wPVCbad (by decide) (by decide)).1

/-! ## Join normalisation (C10) -/

/-- C10: every emitted include path and exclude argument is the lexical
join of the volume path with one annotation segment, and the join
normalises the segment: a trailing slash is dropped, a leading dot
component vanishes and a parent component collapses, so tmp/ and ./tmp
both emit the joined tmp path rather than the verbatim concatenation. -/
theorem processPatterns_joined_normalized :
    (∀ basePath s p, p ∈ processPatterns basePath s →
        ∃ seg, seg ∈ patternSegments s ∧ p = goJoin basePath seg)
    ∧ goJoin "/data/vol1" "tmp/" = "/data/vol1/tmp"
    ∧ goJoin "/data/vol1" "./tmp" = "/data/vol1/tmp"
    ∧ goJoin "/data/vol1" "sub/../tmp" = "/data/vol1/tmp" := by
  refine ⟨?_, by decide, by decide, by decide⟩
  intro basePath s p hp
  rw [processPatterns_eq_map] at hp
  rcases List.mem_map.mp hp with ⟨seg, hseg, rfl⟩
  exact ⟨seg, hseg, rfl⟩

/-- Witness for C10: the single argument emitted for segment tmp/ on base
/data/vol1 is the join of the base with a surviving segment. -/
theorem processPatterns_joined_normalized_witness :
    ∃ seg, seg ∈ patternSegments "tmp/"
      ∧ "/data/vol1/tmp" = goJoin "/data/vol1" seg :=
  processPatterns_joined_normalized.1 "/data/vol1" "tmp/" "/data/vol1/tmp" (by decide)

/-! ## Deduplication-map lemmas -/

/-- Looking up the inserted key finds the inserted value. -/
theorem lookupKey_mapInsert_self (m : List (String × PVCInfo)) (k : String)
    (v : PVCInfo) : lookupKey (mapInsert m k v) k = some v := by
  induction m with
  | nil => simp [mapInsert, lookupKey]
  | cons e rest ih =>
    obtain ⟨k2, v2⟩ := e
    by_cases h : k2 = k <;> simp [mapInsert, lookupKey, h, ih]

/-- Looking up any other key is unchanged by an insertion. -/
theorem lookupKey_mapInsert_ne (m : List (String × PVCInfo)) (k k2 : String)
    (v : PVCInfo) (h : k2 ≠ k) :
    lookupKey (mapInsert m k v) k2 = lookupKey m k2 := by
  induction m with
  | nil => simp [mapInsert, lookupKey, Ne.symm h]
  | cons e rest ih =>
    obtain ⟨k3, v3⟩ := e
    by_cases h3 : k3 = k
    · subst h3
      simp [mapInsert, lookupKey, Ne.symm h]
    · by_cases h4 : k3 = k2 <;> simp [mapInsert, lookupKey, h3, h4, ih, h]

/-- Insertion leaves the key list unchanged when the key is present and
appends the key otherwise. -/
theorem mapInsert_keys (m : List (String × PVCInfo)) (k : String) (v : PVCInfo) :
    (mapInsert m k v).map Prod.fst
      = if k ∈ m.map Prod.fst then m.map Prod.fst
        else m.map Prod.fst ++ [k] := by
  induction m with
  | nil => simp [mapInsert]
  | cons e rest ih =>
    obtain ⟨k2, v2⟩ := e
    by_cases h : k2 = k
    · simp [mapInsert, h]
    · by_cases hm : k ∈ rest.map Prod.fst <;>
        simp [mapInsert, h, ih, hm, Ne.symm h]

/-- Insertion preserves distinctness of the key list. -/
theorem mapInsert_keys_nodup (m : List (String × PVCInfo)) (k : String)
    (v : PVCInfo) (h : (m.map Prod.fst).Nodup) :
    ((mapInsert m k v).map Prod.fst).Nodup := by
  rw [mapInsert_keys]
  by_cases hm : k ∈ m.map Prod.fst
  · simpa [hm] using h
  · simp [hm, List.nodup_append, h]

/-- Every entry of the map after an insertion is the inserted pair or an
entry of the map before it. -/
theorem mem_mapInsert (m : List (String × PVCInfo)) (k : String) (v : PVCInfo)
    (e : String × PVCInfo) (he : e ∈ mapInsert m k v) :
    e = (k, v) ∨ e ∈ m := by
  induction m with
  | nil => simpa [mapInsert] using he
  | cons e2 rest ih =>
    obtain ⟨k2, v2⟩ := e2
    by_cases h : k2 = k
    · simp [mapInsert, h] at he
      rcases he with he | he
      · exact Or.inl (by simp [he])
      · exact Or.inr (by simp [he])
    · simp [mapInsert, h] at he
      rcases he with he | he
      · exact Or.inr (by simp [he])
      · rcases ih he with h2 | h2
        · exact Or.inl h2
        · exact Or.inr (by simp [h2])

/-- Every entry of the map built by a write sequence is one of the writes
or an entry of the starting map. -/
theorem mem_foldl_mapInsert (ws : List (String × PVCInfo)) :
    ∀ (m : List (String × PVCInfo)) (e : String × PVCInfo),
      e ∈ ws.foldl (fun m w => mapInsert m w.1 w.2) m → e ∈ ws ∨ e ∈ m := by
  induction ws with
  | nil => intro m e he; exact Or.inr he
  | cons w rest ih =>
    intro m e he
    rw [List.foldl_cons] at he
    rcases ih (mapInsert m w.1 w.2) e he with h | h
    · exact Or.inl (by simp [h])
    · rcases mem_mapInsert m w.1 w.2 e h with h2 | h2
      · exact Or.inl (by simp [h2])
      · exact Or.inr h2

/-- The key list of the map built by a write sequence stays distinct. -/
theorem foldl_mapInsert_keys_nodup (ws : List (String × PVCInfo)) :
    ∀ (m : List (String × PVCInfo)), (m.map Prod.fst).Nodup →
      ((ws.foldl (fun m w => mapInsert m w.1 w.2) m).map Prod.fst).Nodup := by
  induction ws with
  | nil => intro m h; exact h
  | cons w rest ih =>
    intro m h
    rw [List.foldl_cons]
    exact ih (mapInsert m w.1 w.2) (mapInsert_keys_nodup m w.1 w.2 h)

/-- find? on a list extended by one element on the right. -/
theorem find?_concat {α : Type} (l : List α) (a : α) (p : α → Bool) :
    (l ++ [a]).find? p
      = match l.find? p with
        | some b => some b
        | none => if p a then some a else none := by
  induction l with
  | nil => by_cases h : p a <;> simp [List.find?, h]
  | cons x xs ih => by_cases hx : p x <;> simp [List.find?, hx, ih]

/-- Looking up a key in the map built by a write sequence finds the last
write with that key, falling back to the starting map. -/
theorem lookupKey_foldl_mapInsert (ws : List (String × PVCInfo)) :
    ∀ (m : List (String × PVCInfo)) (k : String),
      lookupKey (ws.foldl (fun m w => mapInsert m w.1 w.2) m) k
        = match ws.reverse.find? (fun w => w.1 == k) with
          | some w => some w.2
          | none => lookupKey m k := by
  induction ws with
  | nil => intro m k; simp
  | cons w rest ih =>
    intro m k
    rw [List.foldl_cons, ih, List.reverse_cons, find?_concat]
    cases hf : rest.reverse.find? (fun u => u.1 == k) with
    | some u => simp
    | none =>
      by_cases hk : w.1 = k
      · subst hk
        simp [lookupKey_mapInsert_self]
      · simp [hk, lookupKey_mapInsert_ne m w.1 k w.2 (Ne.symm hk)]

/-- In a map with distinct keys, membership of a pair makes lookup of its
key find its value. -/
theorem lookupKey_of_mem (m : List (String × PVCInfo)) (k : String) (v : PVCInfo)
    (hnd : (m.map Prod.fst).Nodup) (hm : (k, v) ∈ m) :
    lookupKey m k = some v := by
  induction m with
  | nil => cases hm
  | cons e rest ih =>
    obtain ⟨k2, v2⟩ := e
    rcases List.mem_cons.mp hm with he | he
    · obtain ⟨rfl, rfl⟩ := Prod.mk.injEq .. ▸ he
      simp [lookupKey]
    · have hk2 : k2 ≠ k := by
        intro hkk
        subst hkk
        have : k2 ∈ rest.map Prod.fst := List.mem_map.mpr ⟨(k2, v), he, rfl⟩
        exact (List.nodup_cons.mp (by simpa using hnd)).1 this
      have := ih (List.nodup_cons.mp (by simpa using hnd)).2 he
      simpa [lookupKey, hk2] using this

/-- Every discovery write pairs the namespace/claim key with an entry
carrying those fields, and only writes entries whose full path under the
storage root exists. -/
theorem volWrites_key_exists (pod : Pod) (cfg : PVCBackupConfig)
    (fs : String → Bool) (vols : List PodVolume) (w : String × PVCInfo)
    (hw : w ∈ volWrites pod cfg fs vols) :
    w.1 = pvcKey w.2 ∧ fs (goJoin "/data" w.2.Path) = true := by
  induction vols with
  | nil => cases hw
  | cons volume rest ih =>
    cases hv : volume.persistentVolumeClaim with
    | none =>
      rw [volWrites, hv] at hw
      exact ih hw
    | some pvcName =>
      rw [volWrites, hv] at hw
      by_cases hfs : fs (goJoin "/data"
          ("pvc-" ++ pvcName ++ "_" ++ pod.Namespace ++ "_" ++ volume.name))
      · simp only [hfs, if_pos, List.mem_cons] at hw
        rcases hw with rfl | hw
        · exact ⟨rfl, hfs⟩
        · exact ih hw
      · simp only [hfs, if_neg, Bool.false_eq_true, reduceIte] at hw
        exact ih hw

/-- The write-sequence form of volWrites_key_exists over all pods. -/
theorem discoveryWrites_key_exists (pods : List Pod) (fs : String → Bool)
    (w : String × PVCInfo) (hw : w ∈ discoveryWrites pods fs) :
    w.1 = pvcKey w.2 ∧ fs (goJoin "/data" w.2.Path) = true := by
  induction pods with
  | nil => cases hw
  | cons pod rest ih =>
    rw [discoveryWrites] at hw
    rcases List.mem_append.mp hw with h | h
    · rw [podWrites] at h
      by_cases he : (getBackupConfig pod.Annotations).Enabled
      · simp only [he, Bool.not_true, Bool.false_eq_true, reduceIte] at h
        exact volWrites_key_exists pod (getBackupConfig pod.Annotations) fs
          pod.Volumes w h
      · simp only [Bool.not_eq_true] at he
        simp [he] at h
    · exact ih h

/-! ## Discovery deduplication (C4) and existence filtering (C5) -/

/-- C4: the discovery result holds at most one entry per namespace and
claim-name pair, and each returned entry is exactly the last write with
its key in the iteration order of the pod and volume loops. -/
theorem GetPVCsToBackup_dedup (pods : List Pod) (fs : String → Bool)
    (pvcs : List PVCInfo)
    (h : GetPVCsToBackup (.ok pods) fs = .ok pvcs) :
    (pvcs.map (fun i => (i.Namespace, i.Name))).Nodup
    ∧ ∀ info ∈ pvcs,
        (discoveryWrites pods fs).reverse.find? (fun w => w.1 == pvcKey info)
          = some (pvcKey info, info) := by
  have hpvcs : pvcs = ((discoveryWrites pods fs).foldl
      (fun m w => mapInsert m w.1 w.2) []).map Prod.snd := by
    have := h
    simp only [GetPVCsToBackup, Except.ok.injEq] at this
    exact this.symm
  set fold := (discoveryWrites pods fs).foldl (fun m w => mapInsert m w.1 w.2) []
    with hfold
  have hnodup : (fold.map Prod.fst).Nodup :=
    foldl_mapInsert_keys_nodup (discoveryWrites pods fs) [] (by simp)
  have hcons : ∀ e ∈ fold, e.1 = pvcKey e.2 := by
    intro e he
    rcases mem_foldl_mapInsert (discoveryWrites pods fs) [] e he with hw | hw
    · exact (discoveryWrites_key_exists pods fs e hw).1
    · cases hw
  constructor
  · have hkeys : pvcs.map pvcKey = fold.map Prod.fst := by
      rw [hpvcs, List.map_map]
      exact List.map_congr_left (fun e he => (hcons e he).symm)
    have hknd : (pvcs.map pvcKey).Nodup := hkeys ▸ hnodup
    have : (((pvcs.map (fun i => (i.Namespace, i.Name))).map
        (fun pr => pr.1 ++ "/" ++ pr.2))).Nodup := by
      rw [List.map_map]
      exact hknd
    exact this.of_map
  · intro info hinfo
    have hmem : (pvcKey info, info) ∈ fold := by
      rw [hpvcs] at hinfo
      rcases List.mem_map.mp hinfo with ⟨e, he, rfl⟩
      have := hcons e he
      have hpe : e = (pvcKey e.2, e.2) := by
        rw [← this]
      rw [← hpe]
      exact he
    have hlk : lookupKey fold (pvcKey info) = some info :=
      lookupKey_of_mem fold (pvcKey info) info hnodup hmem
    rw [hfold, lookupKey_foldl_mapInsert (discoveryWrites pods fs) []
      (pvcKey info)] at hlk
    cases hf : (discoveryWrites pods fs).reverse.find?
        (fun w => w.1 == pvcKey info) with
    | none => rw [hf] at hlk; simp [lookupKey] at hlk
    | some w =>
      rw [hf] at hlk
      simp only [Option.some.injEq] at hlk
      have hw1 : w.1 = pvcKey info := by
        have := List.find?_some hf
        simpa using this
      have hwe : w = (pvcKey info, info) := by
        obtain ⟨w1, w2⟩ := w
        simp only at hw1 hlk
        rw [hw1, hlk]
      rw [hwe]

/-- First pod of the C4 witness: mounts claim data through volume v1. -/
def wPodA : Pod :=
  { Namespace := "default",
    Annotations := [(AnnotationEnabled, "true")],
    Volumes := [{ name := "v1", persistentVolumeClaim := some "data" }] }

/-- Second pod of the C4 witness: mounts the same claim through volume
v2, so its write is the later one. -/
def wPodB : Pod :=
  { Namespace := "default",
    Annotations := [(AnnotationEnabled, "true")],
    Volumes := [{ name := "v2", persistentVolumeClaim := some "data" }] }

/-- Witness filesystem on which every directory exists. -/
def wFsAll (_ : String) : Bool := true

/-- The entry surviving deduplication in the C4 witness: the one written
while processing the second pod. -/
def wInfoB : PVCInfo :=
  { Name := "data", Namespace := "default", Path := "pvc-data_default_v2",
    Config := { Enabled := true, Include := "", Exclude := "" } }

/-- Witness for C4: two pods mounting the same claim yield one entry, the
one written last. -/
theorem GetPVCsToBackup_dedup_witness :
    (([wInfoB].map (fun i => (i.Namespace, i.Name)))).Nodup
    ∧ (discoveryWrites [wPodA, wPodB] wFsAll).reverse.find?
        (fun w => w.1 == pvcKey wInfoB) = some (pvcKey wInfoB, wInfoB) := by
  have h := GetPVCsToBackup_dedup [wPodA, wPodB] wFsAll [wInfoB] (by rfl)
  exact ⟨h.1, h.2 wInfoB (by simp)⟩

/-- C5: discovery over a successful pod query never fails, and every
entry it returns passed the existence check of its directory under the
storage root at the moment it was constructed; claims whose directory is
missing are skipped without any error. -/
theorem GetPVCsToBackup_existence_check (pods : List Pod) (fs : String → Bool) :
    (∃ l, GetPVCsToBackup (.ok pods) fs = .ok l)
    ∧ ∀ pvcs info, GetPVCsToBackup (.ok pods) fs = .ok pvcs → info ∈ pvcs →
        fs (goJoin "/data" info.Path) = true := by
  constructor
  · exact ⟨_, rfl⟩
  · intro pvcs info h hmem
    have hpvcs : pvcs = ((discoveryWrites pods fs).foldl
        (fun m w => mapInsert m w.1 w.2) []).map Prod.snd := by
      simp only [GetPVCsToBackup, Except.ok.injEq] at h
      exact h.symm
    rw [hpvcs] at hmem
    rcases List.mem_map.mp hmem with ⟨e, he, rfl⟩
    rcases mem_foldl_mapInsert (discoveryWrites pods fs) [] e he with hw | hw
    · exact (discoveryWrites_key_exists pods fs e hw).2
    · cases hw

/-- The C5 witness pod: one volume whose claim directory exists and one
whose claim directory is missing. -/
def wPodMiss : Pod :=
  { Namespace := "default",
    Annotations := [(AnnotationEnabled, "true")],
    Volumes := [{ name := "vol", persistentVolumeClaim := some "data" },
                { name := "vol2", persistentVolumeClaim := some "other" }] }

/-- The C5 witness filesystem: only /data/pvc-data_default_vol exists. -/
def wFsOne (p : String) : Bool :=
  p == "/data/pvc-data_default_vol"

/-- The single entry discovered in the C5 witness. -/
def wInfoData : PVCInfo :=
  { Name := "data", Namespace := "default", Path := "pvc-data_default_vol",
    Config := { Enabled := true, Include := "", Exclude := "" } }

/-- Witness for C5: the missing claim is skipped without an error and the
returned entry passed the existence check. -/
theorem GetPVCsToBackup_existence_check_witness :
    (∃ l, GetPVCsToBackup (.ok [wPodMiss]) wFsOne = .ok l)
    ∧ wFsOne (goJoin "/data" wInfoData.Path) = true := by
  refine ⟨(GetPVCsToBackup_existence_check [wPodMiss] wFsOne).1, ?_⟩
  exact (GetPVCsToBackup_existence_check [wPodMiss] wFsOne).2 [wInfoData]
    wInfoData (by rfl) (by simp)

/-! ## The scheduling loop (C8) -/

/-- The select loop, started after n cycles with a cancellation somewhere
in the remaining events, returns nil and runs exactly one further cycle
per tick before the first cancellation, whatever the cycle outcomes. -/
theorem backupLoopAux_cancel (cycleResult : Nat → Except String Unit)
    (events : List LoopEvent) (hc : LoopEvent.cancel ∈ events) :
    ∀ n, (backupLoopAux cycleResult events n).returned = some (.ok ())
      ∧ (backupLoopAux cycleResult events n).cyclesRun
          = n + (events.takeWhile (fun ev => ev == LoopEvent.tick)).length := by
  induction events with
  | nil => cases hc
  | cons ev rest ih =>
    intro n
    cases ev with
    | cancel =>
      have hbe : (LoopEvent.cancel == LoopEvent.tick) = false := rfl
      simp [backupLoopAux, List.takeWhile, hbe]
    | tick =>
      have hbe : (LoopEvent.tick == LoopEvent.tick) = true := rfl
      have hc2 : LoopEvent.cancel ∈ rest := by
        rcases List.mem_cons.mp hc with h | h
        · cases h
        · exact h
      have h := ih hc2 (n + 1)
      cases hcr : cycleResult n with
      | error e =>
        refine ⟨by simp [backupLoopAux, hcr, h.1], ?_⟩
        simp [backupLoopAux, hcr, h.2, List.takeWhile, hbe]
        omega
      | ok u =>
        refine ⟨by simp [backupLoopAux, hcr, h.1], ?_⟩
        simp [backupLoopAux, hcr, h.2, List.takeWhile, hbe]
        omega

/-- C8: a failed cycle issues no backup invocation when its discovery
query fails yet never ends the loop; the loop runs its immediate cycle
plus one cycle per tick before the first cancellation, whatever each
cycle returned, and exits cleanly with nil when the cancellation signal
is observed at the tick-wait point. -/
theorem StartBackupLoop_cancel_clean (cycleResult : Nat → Except String Unit)
    (events : List LoopEvent) (hc : LoopEvent.cancel ∈ events) :
    (∀ repo host retention backupOk forgetOk e,
        (performBackups repo host retention (.error e) backupOk forgetOk).calls = []
        ∧ (performBackups repo host retention (.error e) backupOk forgetOk).result
            = .error ("failed to get PVCs to backup: " ++ e))
    ∧ (StartBackupLoop cycleResult events).returned = some (.ok ())
    ∧ (StartBackupLoop cycleResult events).cyclesRun
        = 1 + (events.takeWhile (fun ev => ev == LoopEvent.tick)).length := by
  refine ⟨fun repo host retention backupOk forgetOk e => ⟨rfl, rfl⟩, ?_, ?_⟩ <;>
    cases h0 : cycleResult 0 <;>
      simp [StartBackupLoop, h0, (backupLoopAux_cancel cycleResult events hc 1).1,
        (backupLoopAux_cancel cycleResult events hc 1).2]

/-- Witness for C8: two ticks with failing cycles followed by a
cancellation exit cleanly after running the immediate cycle and one cycle
per tick. -/
theorem StartBackupLoop_cancel_clean_witness :
    (StartBackupLoop (fun _ => .error "query failed")
        [LoopEvent.tick, LoopEvent.tick, LoopEvent.cancel]).returned
      = some (.ok ())
    ∧ (StartBackupLoop (fun _ => .error "query failed")
        [LoopEvent.tick, LoopEvent.tick, LoopEvent.cancel]).cyclesRun
      = 1 + ([LoopEvent.tick, LoopEvent.tick,
          LoopEvent.cancel].takeWhile (fun ev => ev == LoopEvent.tick)).length :=
  ⟨(StartBackupLoop_cancel_clean (fun _ => .error "query failed")
      [LoopEvent.tick, LoopEvent.tick, LoopEvent.cancel] (by simp)).2.1,
   (StartBackupLoop_cancel_clean (fun _ => .error "query failed")
      [LoopEvent.tick, LoopEvent.tick, LoopEvent.cancel] (by simp)).2.2⟩

end LocalPVCBackup
